import Mathlib

/-!
# Verification of the technical-analysis indicator core

A shallow embedding of the indicator computations of
`src/stock_analysis_app.py` (pandas rolling-window statistics over the
close-price column), with theorems checking the specification's claims
about them.

Close prices are modelled as rational numbers.  A pandas series with NaN
entries from an incomplete rolling window (SMA, Bollinger) is modelled
as a list of `Option ℚ`, `none` standing for an undefined (NaN) entry.
The RSI line additionally produces non-finite floats — `x/0` is a signed
infinity and `0/0` is NaN, which `dropna()` removes — so its pipeline is
modelled over `FVal`, rationals extended with the two infinities and
NaN, with IEEE-style propagation.
-/

namespace StockApp

/-- Arithmetic mean of a list of rationals (`0` on the empty list,
matching `sum/length` with rational division by zero). -/
def mean (xs : List ℚ) : ℚ := xs.sum / xs.length

/-- The trailing window of (at most) `p` values ending at index `i`:
`xs[i-p+1 .. i]`.  This is the window pandas `rolling(window=p)`
aggregates at position `i`. -/
def windowSlice (xs : List ℚ) (p i : ℕ) : List ℚ :=
  (xs.take (i + 1)).drop (i + 1 - p)

/-- `df['Close'].rolling(window=p).mean()` at position `i`: the mean of
the last `p` closes, `none` (NaN) while fewer than `p` values have
accumulated. -/
def rollingMeanAt (closes : List ℚ) (p i : ℕ) : Option ℚ :=
  if p ≤ i + 1 then some (mean (windowSlice closes p i)) else none

/-- The SMA output series (line 118 of the source):
`df['Close'].rolling(window=sma_periods).mean()`, one entry per input
position. -/
def sma (closes : List ℚ) (p : ℕ) : List (Option ℚ) :=
  (List.range closes.length).map (rollingMeanAt closes p)

/-- Sample variance (`ddof=1`) of a list, undefined (NaN) on fewer than
two observations, matching pandas `std` semantics before the square
root. -/
def sampleVar (xs : List ℚ) : Option ℚ :=
  if xs.length ≤ 1 then none
  else some (((xs.map fun x => (x - mean xs) ^ 2).sum) / (xs.length - 1))

/-- `df['Close'].rolling(window=p).std()` at position `i`, before the
square root: the sample variance (pandas default `ddof=1`) of the last
`p` closes. -/
def rollingVarAt (closes : List ℚ) (p i : ℕ) : Option ℚ :=
  if p ≤ i + 1 then sampleVar (windowSlice closes p i) else none

/-- `df['Close'].rolling(window=p).std()` at position `i` (line 130):
the square root of the sample variance. -/
noncomputable def rollingStdAt (closes : List ℚ) (p i : ℕ) : Option ℝ :=
  (rollingVarAt closes p i).map fun v => Real.sqrt v

/-- `upper_band = rolling_mean + bb_std * rolling_std` (line 131) at
position `i`; NaN (`none`) propagates from either operand. -/
noncomputable def upperBandAt (closes : List ℚ) (p : ℕ) (k : ℚ) (i : ℕ) : Option ℝ :=
  (rollingMeanAt closes p i).bind fun m =>
    (rollingStdAt closes p i).map fun s => (m : ℝ) + (k : ℝ) * s

/-- `lower_band = rolling_mean - bb_std * rolling_std` (line 132) at
position `i`. -/
noncomputable def lowerBandAt (closes : List ℚ) (p : ℕ) (k : ℚ) (i : ℕ) : Option ℝ :=
  (rollingMeanAt closes p i).bind fun m =>
    (rollingStdAt closes p i).map fun s => (m : ℝ) - (k : ℝ) * s

/-- The upper Bollinger band as a series, one entry per input position. -/
noncomputable def upper_band (closes : List ℚ) (p : ℕ) (k : ℚ) : List (Option ℝ) :=
  (List.range closes.length).map (upperBandAt closes p k)

/-- The lower Bollinger band as a series, one entry per input position. -/
noncomputable def lower_band (closes : List ℚ) (p : ℕ) (k : ℚ) : List (Option ℝ) :=
  (List.range closes.length).map (lowerBandAt closes p k)

/-- An IEEE-754 style value arising in the RSI percent-change pipeline:
a finite (exactly represented) number, a signed infinity, or NaN.
Division produces `+inf` for `x/0` with `x > 0`, `-inf` for `x < 0`,
and NaN for `0/0`. -/
inductive FVal
  | nan
  | pinf
  | ninf
  | fin (q : ℚ)
deriving DecidableEq

/-- Whether a pipeline value is NaN; `dropna` removes exactly these
entries. -/
def FVal.isNaN : FVal → Bool
  | .nan => true
  | _ => false

/-- IEEE addition on pipeline values: NaN is contagious, opposite
infinities give NaN, an infinity absorbs finite values.  On these cases
the outcome does not depend on the order of addition, so a fold models
the pandas window sum. -/
def addF : FVal → FVal → FVal
  | .nan, _ => .nan
  | _, .nan => .nan
  | .pinf, .ninf => .nan
  | .ninf, .pinf => .nan
  | .pinf, _ => .pinf
  | _, .pinf => .pinf
  | .ninf, _ => .ninf
  | _, .ninf => .ninf
  | .fin a, .fin b => .fin (a + b)

/-- IEEE sum of a window of pipeline values. -/
def sumF : List FVal → FVal
  | [] => .fin 0
  | v :: rest => addF v (sumF rest)

/-- Mean of a rolling window of pipeline values: the IEEE sum divided
by the window length — an infinite sum stays infinite, NaN stays NaN. -/
def meanF (xs : List FVal) : FVal :=
  match sumF xs with
  | .nan => .nan
  | .pinf => .pinf
  | .ninf => .ninf
  | .fin s => .fin (s / xs.length)

/-- Entry `j` of `df['Close'].pct_change() + 1` for `j + 1` a position
of the input — the percent change of close `j+1` against close `j`,
plus one, i.e. the ratio `closes[j+1]/closes[j]` — with pandas float
semantics at a zero denominator: `(c - 0)/0` is `+inf` for `c > 0`,
`-inf` for `c < 0`, and NaN for `c = 0`. -/
def ratioAt (closes : List ℚ) (j : ℕ) : FVal :=
  if closes.getD j 0 ≠ 0 then .fin (closes.getD (j + 1) 0 / closes.getD j 0)
  else if 0 < closes.getD (j + 1) 0 then .pinf
  else if closes.getD (j + 1) 0 < 0 then .ninf
  else .nan

/-- `df['Close'].pct_change().dropna() + 1` (line 151): the `n - 1`
day-over-day entries (the leading NaN of `pct_change` is dropped), with
every remaining NaN entry (a `0/0` change) also removed by `dropna`,
compressing the series in place. -/
def ratios (closes : List ℚ) : List FVal :=
  ((List.range (closes.length - 1)).map (ratioAt closes)).filter fun v => ! v.isNaN

/-- `(df['Close'].pct_change().dropna() + 1).rolling(window=p).mean()`
at position `j` of the compressed series: NaN while fewer than `p`
entries have accumulated. -/
def rsiMeanAt (closes : List ℚ) (p j : ℕ) : FVal :=
  if p ≤ j + 1 then meanF (((ratios closes).take (j + 1)).drop (j + 1 - p)) else .nan

/-- The source's RSI (line 151):
`100 - (100 / (1 + (df['Close'].pct_change().dropna() + 1).rolling(window=p).mean()))`
with pandas float semantics: an infinite rolling mean `m` gives exactly
100 (`100/(1 ± inf)` is a signed zero); a finite mean with `1 + m = 0`
gives `100 - 100/0 = -inf`; NaN propagates. -/
def rsiAt (closes : List ℚ) (p j : ℕ) : FVal :=
  match rsiMeanAt closes p j with
  | .nan => .nan
  | .pinf => .fin 100
  | .ninf => .fin 100
  | .fin m => if 1 + m = 0 then .ninf else .fin (100 - 100 / (1 + m))

/-- The source's RSI output series: one entry per entry of the
`dropna`-compressed percent-change series — at most `n - 1` entries for
`n` input bars, fewer when `dropna` removed `0/0` changes. -/
def rsi (closes : List ℚ) (p : ℕ) : List FVal :=
  (List.range (ratios closes).length).map (rsiAt closes p)

/-- Day-over-day change at position `i ≥ 1`, per the specification's
standard RSI definition. -/
def changeAt (closes : List ℚ) (i : ℕ) : ℚ :=
  closes.getD i 0 - closes.getD (i - 1) 0

/-- Gain at position `i`: the positive part of the change, else `0`
(specification wording). -/
def gainAt (closes : List ℚ) (i : ℕ) : ℚ := max (changeAt closes i) 0

/-- Loss at position `i`: the negated negative change, else `0`
(specification wording). -/
def lossAt (closes : List ℚ) (i : ℕ) : ℚ := max (-(changeAt closes i)) 0

/-- Standard RSI following the specification's words (simple rolling
average of gains and losses over `period`, first `period` positions
undefined, `avgLoss = 0` handled by the spec's explicit policy).  Stated
only for comparison with the source's `rsiAt`. -/
def rsiSpecAt (closes : List ℚ) (p i : ℕ) : Option ℚ :=
  if i < closes.length ∧ p ≤ i ∧ 1 ≤ p then
    let g := (((List.range p).map fun t => gainAt closes (i - t)).sum) / p
    let l := (((List.range p).map fun t => lossAt closes (i - t)).sum) / p
    if l = 0 then (if g = 0 then some 50 else some 100)
    else some (100 - 100 / (1 + g / l))
  else none

/-! ## Basic lemmas about the embedding -/

lemma getElem?_map_range {α : Type} (f : ℕ → α) (n i : ℕ) :
    ((List.range n).map f)[i]? = if i < n then some (f i) else none := by
  by_cases h : i < n
  · simp [List.getElem?_map, List.getElem?_range, h]
  · rw [if_neg h]
    apply List.getElem?_eq_none
    simpa using le_of_not_lt h

lemma windowSlice_length {xs : List ℚ} {p i : ℕ} (hi : i < xs.length) (hp : p ≤ i + 1) :
    (windowSlice xs p i).length = p := by
  simp [windowSlice]
  omega

lemma getD_nonneg {closes : List ℚ} (h : ∀ x ∈ closes, 0 ≤ x) (j : ℕ) :
    0 ≤ closes.getD j 0 := by
  rcases lt_or_le j closes.length with hj | hj
  · rw [List.getD_eq_getElem _ 0 hj]
    exact h _ (closes.getElem_mem hj)
  · simp [List.getD_eq_getElem?_getD, List.getElem?_eq_none hj]

lemma rsiAt_eq_nan {closes : List ℚ} {p j : ℕ}
    (h : rsiMeanAt closes p j = FVal.nan) : rsiAt closes p j = FVal.nan := by
  rw [rsiAt, h]

lemma rsiAt_eq_pinf {closes : List ℚ} {p j : ℕ}
    (h : rsiMeanAt closes p j = FVal.pinf) : rsiAt closes p j = FVal.fin 100 := by
  rw [rsiAt, h]

lemma rsiAt_eq_ninf {closes : List ℚ} {p j : ℕ}
    (h : rsiMeanAt closes p j = FVal.ninf) : rsiAt closes p j = FVal.fin 100 := by
  rw [rsiAt, h]

lemma rsiAt_eq_fin {closes : List ℚ} {p j : ℕ} {m : ℚ}
    (h : rsiMeanAt closes p j = FVal.fin m) :
    rsiAt closes p j = if 1 + m = 0 then FVal.ninf else FVal.fin (100 - 100 / (1 + m)) := by
  rw [rsiAt, h]

lemma meanF_fin {xs : List FVal} {m : ℚ} (hm : meanF xs = FVal.fin m) :
    ∃ s, sumF xs = FVal.fin s ∧ m = s / xs.length := by
  rcases hs : sumF xs with _ | _ | _ | s
  all_goals rw [meanF, hs] at hm
  · cases hm
  · cases hm
  · cases hm
  · exact ⟨s, rfl, by injection hm with hm; exact hm.symm⟩

lemma sumF_nonneg {xs : List FVal}
    (h : ∀ v ∈ xs, v = FVal.pinf ∨ ∃ w, v = FVal.fin w ∧ 0 ≤ w) :
    sumF xs = FVal.pinf ∨ ∃ s, sumF xs = FVal.fin s ∧ 0 ≤ s := by
  induction xs with
  | nil => exact Or.inr ⟨0, rfl, le_refl 0⟩
  | cons v rest ih =>
    have hv := h v (List.mem_cons_self _ _)
    have hrest := ih fun u hu => h u (List.mem_cons_of_mem _ hu)
    rw [sumF]
    rcases hv with rfl | ⟨w, rfl, hw⟩
    · rcases hrest with hs | ⟨s, hs, _⟩ <;> rw [hs] <;> exact Or.inl rfl
    · rcases hrest with hs | ⟨s, hs, hsnn⟩ <;> rw [hs]
      · exact Or.inl rfl
      · exact Or.inr ⟨w + s, rfl, add_nonneg hw hsnn⟩

lemma sumF_replicate_one (k : ℕ) :
    sumF (List.replicate k (FVal.fin 1)) = FVal.fin k := by
  induction k with
  | zero => simp [sumF]
  | succ n ih =>
    rw [List.replicate_succ, sumF, ih]
    have h : (1:ℚ) + n = ((n + 1 : ℕ) : ℚ) := by push_cast; ring
    rw [show addF (FVal.fin 1) (FVal.fin n) = FVal.fin (1 + n) from rfl, h]

lemma ratios_mem_nonneg {closes : List ℚ} (h : ∀ x ∈ closes, 0 ≤ x) {v : FVal}
    (hv : v ∈ ratios closes) : v = FVal.pinf ∨ ∃ w, v = FVal.fin w ∧ 0 ≤ w := by
  obtain ⟨hmem, hnn⟩ := List.mem_filter.mp hv
  obtain ⟨j, hjmem, hfo⟩ := List.mem_map.mp hmem
  rw [ratioAt] at hfo
  by_cases hz : closes.getD j 0 ≠ 0
  · rw [if_pos hz] at hfo
    exact Or.inr ⟨_, hfo.symm, div_nonneg (getD_nonneg h _) (getD_nonneg h _)⟩
  · rw [if_neg hz] at hfo
    by_cases hc : 0 < closes.getD (j + 1) 0
    · rw [if_pos hc] at hfo
      exact Or.inl hfo.symm
    · rw [if_neg hc, if_neg (not_lt.mpr (getD_nonneg h _))] at hfo
      rw [← hfo] at hnn
      simp [FVal.isNaN] at hnn

lemma window_mean_nonneg {closes : List ℚ} (h : ∀ x ∈ closes, 0 ≤ x) {p j : ℕ} {m : ℚ}
    (hm : rsiMeanAt closes p j = FVal.fin m) : 0 ≤ m := by
  rw [rsiMeanAt] at hm
  by_cases hp : p ≤ j + 1
  · rw [if_pos hp] at hm
    obtain ⟨s, hs, hms⟩ := meanF_fin hm
    have hmem : ∀ v ∈ ((ratios closes).take (j + 1)).drop (j + 1 - p),
        v = FVal.pinf ∨ ∃ w, v = FVal.fin w ∧ 0 ≤ w := fun v hv =>
      ratios_mem_nonneg h (List.mem_of_mem_take (List.mem_of_mem_drop hv))
    rcases sumF_nonneg hmem with hps | ⟨s', hs', hnn⟩
    · rw [hps] at hs
      cases hs
    · rw [hs'] at hs
      injection hs with hs
      rw [hms, ← hs]
      exact div_nonneg hnn (by positivity)
  · rw [if_neg hp] at hm
    cases hm

/-! ## Claims -/

/-- C1: For every close-price series and period `p ≥ 1`, the SMA output
(line 118, `df['Close'].rolling(window=sma_periods).mean()`) has exactly
as many positions as the input, the first `p-1` are undefined, and every
position `i ≥ p-1` holds the arithmetic mean of `closes[i-p+1 .. i]`;
in particular on closes `[10,…,20]` with period 5, positions 0–3 are
undefined, position 4 is 12 and position 10 is 18. -/
theorem sma_matches_spec :
    (∀ (closes : List ℚ) (p : ℕ), 1 ≤ p →
       (sma closes p).length = closes.length ∧
       (∀ i, i < closes.length → i + 1 < p → (sma closes p)[i]? = some none) ∧
       (∀ i, i < closes.length → p ≤ i + 1 →
          (sma closes p)[i]? =
            some (some (((closes.take (i + 1)).drop (i + 1 - p)).sum / (p : ℚ))))) ∧
    ((∀ i < 4, (sma [10,11,12,13,14,15,16,17,18,19,20] 5)[i]? = some none) ∧
     (sma [10,11,12,13,14,15,16,17,18,19,20] 5)[4]? = some (some 12) ∧
     (sma [10,11,12,13,14,15,16,17,18,19,20] 5)[10]? = some (some 18)) := by
  constructor
  · intro closes p hp
    refine ⟨by simp [sma], ?_, ?_⟩
    · intro i hi hip
      rw [sma, getElem?_map_range, if_pos hi, rollingMeanAt, if_neg (by omega)]
    · intro i hi hip
      rw [sma, getElem?_map_range, if_pos hi, rollingMeanAt, if_pos hip]
      have hl := windowSlice_length hi hip
      simp only [windowSlice] at hl
      simp only [mean, windowSlice, hl]
  · refine ⟨?_, ?_, ?_⟩
    · intro i hi
      interval_cases i <;> norm_num [sma, rollingMeanAt, List.range_succ]
    · norm_num [sma, rollingMeanAt, windowSlice, mean, List.range_succ]
    · norm_num [sma, rollingMeanAt, windowSlice, mean, List.range_succ]

/-- Witness for `sma_matches_spec`: the universal part applied to the
concrete series `[10,11,12]` with period 2. -/
theorem sma_matches_spec_witness :
    (sma [(10:ℚ),11,12] 2).length = 3 ∧ (sma [(10:ℚ),11,12] 2)[0]? = some none := by
  have h := sma_matches_spec.1 [(10:ℚ),11,12] 2 (by norm_num)
  exact ⟨h.1, h.2.1 0 (by norm_num) (by norm_num)⟩

/-- C7: on an empty input series (zero bars) each indicator computation
(SMA, both Bollinger bands, RSI) yields an empty output series; the
embedded computations are total functions, so no exception is raised. -/
theorem empty_input_empty_outputs (p : ℕ) (k : ℚ) :
    sma [] p = [] ∧ upper_band [] p k = [] ∧ lower_band [] p k = [] ∧ rsi [] p = [] := by
  refine ⟨?_, ?_, ?_, ?_⟩ <;> simp [sma, upper_band, lower_band, rsi, ratios]

/-- Witness for `empty_input_empty_outputs` at period 20, multiplier
2. -/
theorem empty_input_empty_outputs_witness :
    sma [] 20 = [] ∧ upper_band [] 20 2 = [] ∧ lower_band [] 20 2 = [] ∧ rsi [] 20 = [] :=
  empty_input_empty_outputs 20 2

/-- C8 (evidence of the code's divergence): SMA and the Bollinger bands
produce one entry per input bar, but the source's RSI line first applies
`dropna()` to `pct_change()`, so its output series has at most `n - 1`
entries for `n` input bars — exactly `n - 1` whenever no close is zero
(only the leading NaN is dropped), and fewer when `dropna` also removes
`0/0` changes (two consecutive zero closes leave an empty RSI series).
Concretely, three nonzero input bars yield a two-entry RSI series: the
first timestamp is dropped, not marked undefined. -/
theorem rsi_output_dropna_shortened :
    (∀ (closes : List ℚ) (p : ℕ) (k : ℚ),
       (sma closes p).length = closes.length ∧
       (upper_band closes p k).length = closes.length ∧
       (lower_band closes p k).length = closes.length ∧
       (rsi closes p).length ≤ closes.length - 1) ∧
    (∀ (closes : List ℚ) (p : ℕ), (∀ x ∈ closes, x ≠ 0) →
       (rsi closes p).length = closes.length - 1) ∧
    ((rsi [(10:ℚ),11,12] 1).length = 2 ∧ ([(10:ℚ),11,12] : List ℚ).length = 3) ∧
    (rsi [(0:ℚ),0] 1).length = 0 := by
  refine ⟨?_, ?_, ?_, ?_⟩
  · intro closes p k
    refine ⟨by simp [sma], by simp [upper_band], by simp [lower_band], ?_⟩
    calc (rsi closes p).length = (ratios closes).length := by simp [rsi]
      _ ≤ ((List.range (closes.length - 1)).map (ratioAt closes)).length :=
            List.length_filter_le _ _
      _ = closes.length - 1 := by simp
  · intro closes p hnz
    have hall : ∀ v ∈ (List.range (closes.length - 1)).map (ratioAt closes),
        (fun v => ! v.isNaN) v = true := by
      intro v hv
      obtain ⟨j, hjmem, hfo⟩ := List.mem_map.mp hv
      have hj : j < closes.length - 1 := List.mem_range.mp hjmem
      have hne : closes.getD j 0 ≠ 0 := by
        rw [List.getD_eq_getElem _ 0 (by omega)]
        exact hnz _ (closes.getElem_mem (by omega))
      rw [ratioAt, if_pos hne] at hfo
      rw [← hfo]
      rfl
    have hfe : ratios closes = (List.range (closes.length - 1)).map (ratioAt closes) := by
      rw [ratios]
      exact List.filter_eq_self.mpr hall
    simp [rsi, hfe]
  · exact ⟨by norm_num [rsi, ratios, ratioAt, FVal.isNaN, List.range_succ, List.filter],
      by norm_num⟩
  · norm_num [rsi, ratios, ratioAt, FVal.isNaN, List.range_succ, List.filter]

/-- Witness for `rsi_output_dropna_shortened`: its universal and
nonzero-closes parts at closes `[1,2,3,4]` with period 2. -/
theorem rsi_output_dropna_shortened_witness :
    (sma [(1:ℚ),2,3,4] 2).length = 4 ∧ (rsi [(1:ℚ),2,3,4] 2).length = 3 :=
  ⟨(rsi_output_dropna_shortened.1 [(1:ℚ),2,3,4] 2 2).1,
   rsi_output_dropna_shortened.2.1 [(1:ℚ),2,3,4] 2 (by norm_num)⟩

/-- C9: with period 1 the rolling sample standard deviation (pandas
`std()`, `ddof=1`) is undefined at every position — a single observation
has no sample variance — so both Bollinger bands are everywhere
undefined, even though the rolling mean is defined everywhere and equals
the close itself. -/
theorem bollinger_period_one_undefined (closes : List ℚ) (k : ℚ) (i : ℕ)
    (hi : i < closes.length) :
    upperBandAt closes 1 k i = none ∧ lowerBandAt closes 1 k i = none ∧
    rollingMeanAt closes 1 i = some (closes.getD i 0) := by
  have hgetD : closes.getD i 0 = closes[i] := List.getD_eq_getElem _ 0 hi
  have hslice : windowSlice closes 1 i = [closes[i]] := by
    rw [windowSlice, Nat.add_sub_cancel, List.drop_take, Nat.add_sub_cancel_left,
      List.drop_eq_getElem_cons hi, List.take_succ_cons, List.take_zero]
  have hvar : rollingVarAt closes 1 i = none := by
    simp [rollingVarAt, hslice, sampleVar]
  have hstd : rollingStdAt closes 1 i = none := by simp [rollingStdAt, hvar]
  refine ⟨by simp [upperBandAt, hstd], by simp [lowerBandAt, hstd], ?_⟩
  have hm : mean [closes[i]] = closes[i] := by simp [mean]
  rw [rollingMeanAt, if_pos (by omega : 1 ≤ i + 1), hslice, hm, hgetD]

/-- Witness for `bollinger_period_one_undefined` on the one-bar series
`[7]`. -/
theorem bollinger_period_one_undefined_witness :
    upperBandAt [(7:ℚ)] 1 2 0 = none ∧ lowerBandAt [(7:ℚ)] 1 2 0 = none ∧
    rollingMeanAt [(7:ℚ)] 1 0 = some (([(7:ℚ)] : List ℚ).getD 0 0) :=
  bollinger_period_one_undefined [(7:ℚ)] 2 0 (by norm_num)

/-- C2 (evidence of the code's divergence from the standard RSI): on
closes `[1,2,1]` with period 2 the source's formula (line 151) yields
`500/9 ≈ 55.6` at the last timestamp (position 1 of the shortened
series carries the timestamp of input position 2), while the
specification's standard gain/loss RSI yields exactly 50 there. -/
theorem rsi_differs_from_standard :
    rsiAt [1,2,1] 2 1 = FVal.fin (500/9) ∧ rsiSpecAt [1,2,1] 2 2 = some 50 ∧
    ((500:ℚ)/9) ≠ 50 := by
  refine ⟨?_, ?_, by norm_num⟩
  · norm_num [rsiAt, rsiMeanAt, ratios, ratioAt, meanF, sumF, addF, FVal.isNaN,
      List.range_succ, List.filter]
  · norm_num [rsiSpecAt, gainAt, lossAt, changeAt, List.range_succ]

/-- C3 (evidence of the code's divergence): on the strictly increasing
closes `[10,11,12]` (length 3 ≥ period + 1 with period 2) the source's
RSI at the last timestamp is `24100/461 ≈ 52.3`, not 100, although the
specification's standard RSI is exactly 100 there. -/
theorem rsi_increasing_not_100 :
    ((10:ℚ) < 11 ∧ (11:ℚ) < 12) ∧
    rsiAt [10,11,12] 2 1 = FVal.fin (24100/461) ∧ ((24100:ℚ)/461) ≠ 100 ∧
    rsiSpecAt [10,11,12] 2 2 = some 100 := by
  refine ⟨⟨by norm_num, by norm_num⟩, ?_, by norm_num, ?_⟩
  · norm_num [rsiAt, rsiMeanAt, ratios, ratioAt, meanF, sumF, addF, FVal.isNaN,
      List.range_succ, List.filter]
  · norm_num [rsiSpecAt, gainAt, lossAt, changeAt, List.range_succ]

/-- C4: whenever every close is a valid (nonnegative) price, every
defined (non-NaN, here necessarily finite) value of the source's RSI
lies in the closed interval `[0, 100]`: each surviving windowed ratio
is nonnegative or `+inf`, so the rolling mean `m` is nonnegative or
`+inf`; an infinite mean gives exactly 100 and a finite one gives
`100 - 100/(1 + m) ∈ [0, 100)`. -/
theorem rsi_bounded (closes : List ℚ) (p : ℕ) (h : ∀ x ∈ closes, 0 ≤ x) (j : ℕ) (r : ℚ)
    (hr : rsiAt closes p j = FVal.fin r) : 0 ≤ r ∧ r ≤ 100 := by
  rcases hm : rsiMeanAt closes p j with _ | _ | _ | m
  · rw [rsiAt_eq_nan hm] at hr
    cases hr
  · rw [rsiAt_eq_pinf hm] at hr
    injection hr with hr
    rw [← hr]
    norm_num
  · rw [rsiAt_eq_ninf hm] at hr
    injection hr with hr
    rw [← hr]
    norm_num
  · have h0 : 0 ≤ m := window_mean_nonneg h hm
    have h1 : (0:ℚ) < 1 + m := by linarith
    rw [rsiAt_eq_fin hm, if_neg (by linarith)] at hr
    injection hr with hr
    rw [← hr]
    constructor
    · have hle : 100 / (1 + m) ≤ 100 := div_le_self (by norm_num) (by linarith)
      linarith
    · have hpos : 0 < 100 / (1 + m) := div_pos (by norm_num) h1
      linarith

/-- Witness for `rsi_bounded` on closes `[2,3]` with period 1, where the
RSI value is 60. -/
theorem rsi_bounded_witness : 0 ≤ (60:ℚ) ∧ (60:ℚ) ≤ 100 :=
  rsi_bounded [2,3] 1 (by norm_num) 0 60
    (by norm_num [rsiAt, rsiMeanAt, ratios, ratioAt, meanF, sumF, addF, FVal.isNaN,
      List.range_succ, List.filter])

/-- C10: on strictly positive closes the RSI computation divides by zero
nowhere: every percent-change denominator `close[j]` is nonzero (so the
ratio entry is the finite number `close[j+1]/close[j]`), every windowed
ratio is nonnegative, and the final divisor `1 + m` is at least 1, hence
nonzero. -/
theorem rsi_no_division_by_zero (closes : List ℚ) (p : ℕ) (hpos : ∀ x ∈ closes, 0 < x) :
    (∀ j, j + 1 < closes.length →
       closes.getD j 0 ≠ 0 ∧
       ratioAt closes j = FVal.fin (closes.getD (j + 1) 0 / closes.getD j 0) ∧
       0 ≤ closes.getD (j + 1) 0 / closes.getD j 0) ∧
    (∀ j m, rsiMeanAt closes p j = FVal.fin m → 0 ≤ m ∧ (1:ℚ) ≤ 1 + m ∧ 1 + m ≠ 0) := by
  have h : ∀ x ∈ closes, 0 ≤ x := fun x hx => (hpos x hx).le
  constructor
  · intro j hj
    have hjlt : j < closes.length := by omega
    have hne : closes.getD j 0 ≠ 0 := by
      rw [List.getD_eq_getElem _ 0 hjlt]
      exact (hpos _ (closes.getElem_mem hjlt)).ne'
    exact ⟨hne, by rw [ratioAt, if_pos hne],
      div_nonneg (getD_nonneg h _) (getD_nonneg h _)⟩
  · intro j m hm
    have h0 := window_mean_nonneg h hm
    exact ⟨h0, by linarith, by intro hcontra; linarith [hcontra]⟩

/-- Witness for `rsi_no_division_by_zero` on closes `[2,4]` with
period 1 (ratio 2, rolling mean 2). -/
theorem rsi_no_division_by_zero_witness :
    (([(2:ℚ),4] : List ℚ).getD 0 0 ≠ 0) ∧ (0 ≤ (2:ℚ) ∧ (1:ℚ) ≤ 1 + 2 ∧ (1:ℚ) + 2 ≠ 0) := by
  have hth := rsi_no_division_by_zero [(2:ℚ),4] 1 (by norm_num)
  exact ⟨(hth.1 0 (by norm_num)).1,
    hth.2 0 2 (by norm_num [rsiMeanAt, ratios, ratioAt, meanF, sumF, addF, FVal.isNaN,
      List.range_succ, List.filter])⟩

/-- C5: on a constant positive close price over at least `period + 1`
bars, every defined position of the source's RSI equals 50: every ratio
is `c/c = 1`, the rolling mean is 1, and `100 - 100/(1+1) = 50`. -/
theorem rsi_flat_is_50 (c : ℚ) (n p j : ℕ) (r : ℚ) (hc : 0 < c) (hp : 1 ≤ p)
    (hn : p + 1 ≤ n) (h : (rsi (List.replicate n c) p)[j]? = some (FVal.fin r)) : r = 50 := by
  have hrat : ratios (List.replicate n c) = List.replicate (n - 1) (FVal.fin 1) := by
    have hmap : (List.range (n - 1)).map (ratioAt (List.replicate n c)) =
        List.replicate (n - 1) (FVal.fin 1) := by
      apply List.eq_replicate_iff.mpr
      refine ⟨by simp, ?_⟩
      intro b hb
      obtain ⟨j', hj'mem, hfo⟩ := List.mem_map.mp hb
      have hj'n : j' < n - 1 := List.mem_range.mp hj'mem
      have h1 : (List.replicate n c : List ℚ).getD j' 0 = c := by
        rw [List.getD_eq_getElem _ 0 (by simpa using by omega : j' < (List.replicate n c).length)]
        simp
      have h2 : (List.replicate n c : List ℚ).getD (j' + 1) 0 = c := by
        rw [List.getD_eq_getElem _ 0
          (by simpa using by omega : j' + 1 < (List.replicate n c).length)]
        simp
      rw [ratioAt, h1, h2, if_pos hc.ne', div_self hc.ne'] at hfo
      exact hfo.symm
    rw [ratios, List.length_replicate, hmap]
    apply List.filter_eq_self.mpr
    intro a ha
    rw [List.eq_of_mem_replicate ha]
    rfl
  rw [rsi, hrat, List.length_replicate, getElem?_map_range] at h
  by_cases hj : j < n - 1
  case neg =>
    rw [if_neg hj] at h
    cases h
  case pos =>
    rw [if_pos hj] at h
    injection h with h
    by_cases hpj : p ≤ j + 1
    case pos =>
      have hk : 1 ≤ min (j + 1) (n - 1) - (j + 1 - p) := by omega
      have hk0 : ((min (j + 1) (n - 1) - (j + 1 - p) : ℕ) : ℚ) ≠ 0 := by
        exact_mod_cast Nat.one_le_iff_ne_zero.mp hk
      have hmean : rsiMeanAt (List.replicate n c) p j = FVal.fin 1 := by
        rw [rsiMeanAt, if_pos hpj, hrat, List.take_replicate, List.drop_replicate, meanF,
          sumF_replicate_one]
        simp [List.length_replicate, div_self hk0]
      rw [rsiAt_eq_fin hmean, if_neg (by norm_num)] at h
      injection h with h
      rw [← h]
      norm_num
    case neg =>
      have hnone : rsiMeanAt (List.replicate n c) p j = FVal.nan := by
        rw [rsiMeanAt, if_neg hpj]
      rw [rsiAt_eq_nan hnone] at h
      cases h

/-- Witness for `rsi_flat_is_50` on three bars of constant close 3 with
period 1. -/
theorem rsi_flat_is_50_witness : (0:ℚ) < 3 ∧ (50:ℚ) = 50 :=
  ⟨by norm_num,
   rsi_flat_is_50 3 3 1 1 50 (by norm_num) (by norm_num) (by norm_num)
     (by norm_num [rsi, rsiAt, rsiMeanAt, ratios, ratioAt, meanF, sumF, addF, FVal.isNaN,
        List.replicate, List.range_succ, List.filter])⟩

/-- C6: the upper Bollinger band equals the rolling mean plus
`multiplier` times the rolling sample standard deviation (`ddof=1`) of
the last `p` closes, the lower band equals the rolling mean minus the
same quantity, both bands are undefined exactly where the rolling mean
or rolling standard deviation is undefined, and on ten constant closes
of 10 with period 5 and multiplier 2 both bands equal 10 at every
defined position (positions 4–9) and are undefined before it. -/
theorem bollinger_bands_spec :
    (∀ (closes : List ℚ) (p : ℕ) (k : ℚ) (i : ℕ), i < closes.length → 2 ≤ p → p ≤ i + 1 →
       upperBandAt closes p k i =
         some ((mean (windowSlice closes p i) : ℝ) + (k : ℝ) *
           Real.sqrt ((((windowSlice closes p i).map
             fun x => (x - mean (windowSlice closes p i)) ^ 2).sum / ((p : ℚ) - 1) : ℚ))) ∧
       lowerBandAt closes p k i =
         some ((mean (windowSlice closes p i) : ℝ) - (k : ℝ) *
           Real.sqrt ((((windowSlice closes p i).map
             fun x => (x - mean (windowSlice closes p i)) ^ 2).sum / ((p : ℚ) - 1) : ℚ)))) ∧
    (∀ (closes : List ℚ) (p : ℕ) (k : ℚ) (i : ℕ),
       (upperBandAt closes p k i = none ↔
         rollingMeanAt closes p i = none ∨ rollingStdAt closes p i = none) ∧
       (lowerBandAt closes p k i = none ↔
         rollingMeanAt closes p i = none ∨ rollingStdAt closes p i = none)) ∧
    (∀ i, 4 ≤ i → i < 10 →
       upperBandAt (List.replicate 10 10) 5 2 i = some 10 ∧
       lowerBandAt (List.replicate 10 10) 5 2 i = some 10) ∧
    (∀ i, i < 4 →
       upperBandAt (List.replicate 10 10) 5 2 i = none ∧
       lowerBandAt (List.replicate 10 10) 5 2 i = none) := by
  refine ⟨?_, ?_, ?_, ?_⟩
  · intro closes p k i hi hp2 hpi
    have hl := windowSlice_length hi hpi
    have hvar : rollingVarAt closes p i =
        some (((windowSlice closes p i).map
          (fun x => (x - mean (windowSlice closes p i)) ^ 2)).sum / ((p : ℚ) - 1)) := by
      rw [rollingVarAt, if_pos hpi, sampleVar,
        if_neg (by omega : ¬ (windowSlice closes p i).length ≤ 1), hl]
    have hstd : rollingStdAt closes p i =
        some (Real.sqrt ((((windowSlice closes p i).map
          (fun x => (x - mean (windowSlice closes p i)) ^ 2)).sum / ((p : ℚ) - 1) : ℚ))) := by
      rw [rollingStdAt, hvar]
      rfl
    have hmean : rollingMeanAt closes p i = some (mean (windowSlice closes p i)) := by
      rw [rollingMeanAt, if_pos hpi]
    constructor
    · rw [upperBandAt, hmean, hstd]
      rfl
    · rw [lowerBandAt, hmean, hstd]
      rfl
  · intro closes p k i
    constructor
    · rcases hm : rollingMeanAt closes p i with _ | m <;>
        rcases hs : rollingStdAt closes p i with _ | s <;>
        simp [upperBandAt, hm, hs]
    · rcases hm : rollingMeanAt closes p i with _ | m <;>
        rcases hs : rollingStdAt closes p i with _ | s <;>
        simp [lowerBandAt, hm, hs]
  · intro i h4 h10
    interval_cases i <;>
      constructor <;>
      norm_num [upperBandAt, lowerBandAt, rollingMeanAt, rollingStdAt, rollingVarAt,
        sampleVar, windowSlice, mean, List.replicate, Real.sqrt_zero]
  · intro i h4
    interval_cases i <;>
      constructor <;>
      norm_num [upperBandAt, lowerBandAt, rollingMeanAt, rollingStdAt, rollingVarAt,
        sampleVar, windowSlice, mean, List.replicate]

/-- Witness for `bollinger_bands_spec` at the constant-10 scenario,
position 4. -/
theorem bollinger_bands_spec_witness :
    upperBandAt (List.replicate 10 10) 5 2 4 = some 10 ∧
    lowerBandAt (List.replicate 10 10) 5 2 4 = some 10 :=
  bollinger_bands_spec.2.2.1 4 (by norm_num) (by norm_num)

end StockApp
